import Mathlib

/-!
Shallow embedding of the MisinfoGuard multi-agent pipeline
(`src/agents/coordinator.py`, `src/core/models.py`, `src/api.py`).

Modelling conventions:
* Python strings are Lean `String`s; snippet truncation and domain splitting
  operate on `String.data` (lists of characters), matching Python's
  character-level slicing.
* Python `float` values that flow through the pipeline unchanged are modelled
  as `Rat`.
* Fallible Python code (exceptions: `KeyError`, `TypeError`, `IndexError`,
  pydantic `ValidationError`) is modelled with `Except Unit`.
* The external collaborators (the search backend, the language model, and the
  standard-library JSON decoder `json.loads`) are parameters: a `Collab`
  record holds the search function, the LLM response to the single
  fact-checking call, the LLM response to the k-th explanation call, and the
  JSON decoding function.
* `datetime.now()` timestamps (`analyzed_at`) are elided from the data model:
  they are wall-clock effects with no control-flow influence.
-/

namespace MisinfoGuard

/-- One raw result dictionary produced by `SearchTool.search`: the coordinator
reads the keys `href`, `title` and `body` with `dict.get`, so each is an
optional string. -/
structure SearchResult where
  href : Option String
  title : Option String
  body : Option String
deriving DecidableEq

/-- `Evidence` from `src/core/models.py`: title, url, snippet. -/
structure Evidence where
  title : String
  url : String
  snippet : String
deriving DecidableEq

/-- Parsed JSON values, as returned by the external `json.loads`. -/
inductive Json where
  | null : Json
  | bool : Bool → Json
  | num : Rat → Json
  | str : String → Json
  | arr : List Json → Json
  | obj : List (String × Json) → Json

/-- `ClaimAnalysis` from `src/core/models.py` (the `analyzed_at` timestamp is
elided, see the header comment). -/
structure ClaimAnalysis where
  claim : String
  verdict : String
  confidence : Rat
  explanation : String
  evidence : List Evidence
  cached : Bool
deriving DecidableEq

/-- Python `fact['claim']` on a parsed JSON value: a `KeyError`/`TypeError`
(missing key, or subscripting a non-dict) is an error. -/
def Json.getItem : Json → String → Except Unit Json
  | .obj kvs, k =>
    match kvs.find? (fun p => p.1 == k) with
    | some p => .ok p.2
    | none => .error ()
  | _, _ => .error ()

/-- Python `fact.get(key, default)`: defaulting lookup on a dict; calling
`.get` on a non-dict raises (`AttributeError`/`TypeError`). -/
def Json.getDefault : Json → String → Json → Except Unit Json
  | .obj kvs, k, d =>
    match kvs.find? (fun p => p.1 == k) with
    | some p => .ok p.2
    | none => .ok d
  | _, _, _ => .error ()

/-- Whether a parsed JSON dict carries the given key. -/
def Json.hasKey : Json → String → Bool
  | .obj kvs, k => kvs.any (fun p => p.1 == k)
  | _, _ => false

/-- Python `float(x)` on a value taken from parsed JSON. Numbers pass through,
booleans coerce to 1/0; `None`, lists and dicts raise `TypeError`. (Python
would also parse a purely numeric *string*; that case is conservatively an
error here — no theorem below depends on it.) -/
def pyFloat : Json → Except Unit Rat
  | .num q => .ok q
  | .bool b => .ok (if b then 1 else 0)
  | _ => .error ()

/-- Rendering of a parsed JSON value when interpolated into a prompt f-string.
Python would print the value's repr; only the string case is load-bearing
downstream (non-string values never survive pydantic validation into stored
fields), so non-string values render as fixed tags. -/
def Json.render : Json → String
  | .str s => s
  | .num q => toString q
  | .bool b => if b then "True" else "False"
  | .null => "None"
  | .arr _ => "<array>"
  | .obj _ => "<object>"

/-- The character `` ` ``, written via its code point. -/
def backtick : Char := Char.ofNat 96

/-- Python `s.strip()` on a character list: drop leading and trailing
whitespace. -/
def trimChars (l : List Char) : List Char :=
  ((l.dropWhile Char.isWhitespace).reverse.dropWhile Char.isWhitespace).reverse

/-- Python `s.strip()`. -/
def pyStrip (s : String) : String :=
  String.mk (trimChars s.data)

/-- Fuel-indexed engine for Python `s.replace(pat, "")`: scan left to right,
delete each non-overlapping occurrence of `pat`. The fuel only bounds the
recursion; one unit is consumed per examined character, so any fuel of at
least the list's length gives Python's exact semantics. -/
def pyRemoveGo (pat : List Char) : Nat → List Char → List Char
  | _, [] => []
  | 0, l => l
  | fuel + 1, c :: cs =>
    if List.isPrefixOf pat (c :: cs) then
      pyRemoveGo pat fuel (List.drop (pat.length - 1) cs)
    else
      c :: pyRemoveGo pat fuel cs

/-- Python `s.replace(pat, "")`. -/
def pyRemove (pat : String) (s : String) : String :=
  String.mk (pyRemoveGo pat.data s.data.length s.data)

/-- `FactCheckerAgent.check` response cleanup:
`response.text.strip().replace("```json", "").replace("```", "").strip()`. -/
def stripFences (s : String) : String :=
  pyStrip (pyRemove "```" (pyRemove "```json" (pyStrip s)))

/-- Python `"sub" in s` (substring containment) on character lists. -/
def listContainsSub (needle : List Char) : List Char → Bool
  | [] => needle.isEmpty
  | c :: cs => List.isPrefixOf needle (c :: cs) || listContainsSub needle cs

/-- Python `s.split(sep)` for a single-character separator. -/
def splitOnChar (sep : Char) : List Char → List (List Char)
  | [] => [[]]
  | c :: cs =>
    match splitOnChar sep cs with
    | [] => [[]]
    | h :: t => if c == sep then [] :: h :: t else (c :: h) :: t

/-- Python `s.lower()` (character-wise; the keyword needles below are ASCII). -/
def pyLower (l : List Char) : List Char := l.map Char.toLower

/-- The trusted-domain keywords of `CredibilityAssessorAgent.assess`. -/
def trustedKeys : List String := ["edu", "gov", "reuters", "apnews", "bbc", "factcheck"]

/-- The low-credibility keywords of `CredibilityAssessorAgent.assess`. -/
def lowCredKeys : List String := ["blog", "wordpress", "medium"]

/-- Domain extraction in `CredibilityAssessorAgent.assess`:
`ev.url.split('/')[2] if '/' in ev.url else ev.url`. Indexing a split with
fewer than three segments raises `IndexError`. -/
def domainOf (url : String) : Except Unit (List Char) :=
  if url.data.contains '/' then
    match (splitOnChar '/' url.data).get? 2 with
    | some d => .ok d
    | none => .error ()
  else .ok url.data

/-- The credibility tier assigned to an extracted domain. -/
def classify (domain : List Char) : String :=
  let d := pyLower domain
  if trustedKeys.any (fun kw => listContainsSub kw.data d) then "high"
  else if lowCredKeys.any (fun kw => listContainsSub kw.data d) then "low"
  else "medium"

/-- Python dict assignment `m[k] = v`: update in place when the key exists,
append otherwise (insertion order is preserved). -/
def dictInsert (m : List (String × String)) (k v : String) : List (String × String) :=
  if m.any (fun p => p.1 == k) then
    m.map (fun p => if p.1 == k then (k, v) else p)
  else m ++ [(k, v)]

/-- Python `m.get(k)` on the credibility dict. -/
def dictGet (m : List (String × String)) (k : String) : Option String :=
  (m.find? (fun p => p.1 == k)).map (·.2)

/-- The loop body of `CredibilityAssessorAgent.assess`, threading the dict. -/
def CredibilityAssessorAgent.assessGo :
    List Evidence → List (String × String) → Except Unit (List (String × String))
  | [], m => .ok m
  | ev :: rest, m =>
    match domainOf ev.url with
    | .error e => .error e
    | .ok d => CredibilityAssessorAgent.assessGo rest (dictInsert m ev.url (classify d))

/-- `CredibilityAssessorAgent.assess`. -/
def CredibilityAssessorAgent.assess (evidence : List Evidence) :
    Except Unit (List (String × String)) :=
  CredibilityAssessorAgent.assessGo evidence []

/-- The three derived queries of `EvidenceGathererAgent.gather`. -/
def gatherQueries (topic : String) : List String :=
  [topic, topic ++ " fact check", topic ++ " misinformation analysis"]

/-- Conversion of one raw search result into `Evidence`:
`Evidence(title=result.get('title', 'Unknown'), url=url,
body=result.get('body', '')[:200])`. -/
def mkEvidence (r : SearchResult) : Evidence :=
  { title := r.title.getD "Unknown"
    url := r.href.getD ""
    snippet := String.mk ((r.body.getD "").data.take 200) }

/-- The dedup loop of `EvidenceGathererAgent.gather`: keep a result when its
`href` is present, truthy (non-empty) and unseen; first occurrence wins. -/
def gatherDedup : List SearchResult → List String → List Evidence
  | [], _ => []
  | r :: rs, seen =>
    match r.href with
    | none => gatherDedup rs seen
    | some u =>
      if u ≠ "" ∧ u ∉ seen then mkEvidence r :: gatherDedup rs (u :: seen)
      else gatherDedup rs seen

/-- `EvidenceGathererAgent.gather`: fan the three queries out to the search
collaborator, merge the per-query result lists in query-submission order
(`asyncio.gather` preserves argument order), deduplicate by URL, keep the
first 8. -/
def EvidenceGathererAgent.gather (searchFn : String → List SearchResult)
    (topic : String) : List Evidence :=
  (gatherDedup (List.flatten ((gatherQueries topic).map searchFn)) []).take 8

/-- The bulleted evidence summary interpolated into the fact-checking prompt. -/
def evidenceSummary (evidence : List Evidence) : String :=
  String.intercalate "\n" (evidence.map (fun e => "- " ++ e.title ++ ": " ++ e.snippet))

/-- The fact-checking prompt of `FactCheckerAgent.check`. -/
def checkPrompt (topic : String) (evidence : List Evidence) : String :=
  "Analyze this topic for misinformation:\n\nTopic: \"" ++ topic ++
  "\"\n\nEvidence:\n" ++ evidenceSummary evidence ++
  "\n\nIdentify 1-3 specific claims that are MISINFORMATION only.\nReturn JSON array:\n[\n  \x7b\n    \"claim\": \"exact claim text\",\n    \"verdict\": \"MISINFORMATION\",\n    \"confidence\": 0.85,\n    \"reasoning\": \"why this is false\"\n  \x7d\n]\n\nReturn [] if no misinformation found."

/-- `claims if isinstance(claims, list) else [claims]`, combined with the
caught parse failure (`None` here) producing `[]`. -/
def jsonToList : Option Json → List Json
  | none => []
  | some (.arr xs) => xs
  | some j => [j]

/-- `FactCheckerAgent.check`: prompt the language model, strip code fences,
parse; a collaborator error or a parse failure is caught and yields `[]`;
a non-array JSON value is wrapped in a one-element list. -/
def FactCheckerAgent.check (llm : String → Except Unit String)
    (parse : String → Option Json) (topic : String) (evidence : List Evidence) :
    List Json :=
  match llm (checkPrompt topic evidence) with
  | .error _ => []
  | .ok t => jsonToList (parse (stripFences t))

/-- The markdown source list interpolated into the explanation prompt
(`evidence[:3]`). -/
def evidenceLinks (evidence : List Evidence) : String :=
  String.intercalate "\n"
    ((evidence.take 3).map (fun e => "- [" ++ e.title ++ "](" ++ e.url ++ ")"))

/-- The explanation prompt of `ExplainerAgent.explain`. -/
def explainPrompt (claim reasoning : String) (evidence : List Evidence) : String :=
  "Create a clear, concise explanation (2-3 paragraphs):\n\nClaim: \"" ++ claim ++
  "\"\nWhy it\x27s false: " ++ reasoning ++ "\nSources:\n" ++ evidenceLinks evidence ++
  "\n\nWrite in friendly, authoritative tone with Markdown formatting."

/-- `ExplainerAgent.explain`: prompt the language model; on success return the
response text, on a collaborator error return the supplied `reasoning`
unchanged. The claim and reasoning arrive as raw parsed-JSON values exactly as
the coordinator passes `fact['claim']` and `fact.get('reasoning', '')`. -/
def ExplainerAgent.explain (llm : String → Except Unit String)
    (claimJ reasoningJ : Json) (evidence : List Evidence) : Json :=
  match llm (explainPrompt claimJ.render reasoningJ.render evidence) with
  | .ok t => .str t
  | .error _ => reasoningJ

/-- The external collaborators of one `analyze` run: the search backend, the
language-model response to the fact-checking call, the language-model response
to the k-th explanation call (the coordinator awaits one generation per
claim), and the standard-library JSON decoder. -/
structure Collab where
  searchFn : String → List SearchResult
  factLLM : String → Except Unit String
  explainLLM : Nat → String → Except Unit String
  parse : String → Option Json

/-- Modelled from the spec: the `MemoryBank` (ResultCache) state, a
topic-keyed store of previously computed claim sequences (`src/memory/` is
not part of the provided sources; §4.6 gives its `get`/`store` contract). -/
def MemoryBank : Type := String → Option (List ClaimAnalysis)

/-- Modelled from the spec: `MemoryBank.get` — exact-string lookup. -/
def MemoryBank.get (cache : MemoryBank) (topic : String) :
    Option (List ClaimAnalysis) := cache topic

/-- Modelled from the spec: `MemoryBank.store` — write the claim sequence
under the exact topic string. -/
def MemoryBank.store (cache : MemoryBank) (topic : String)
    (claims : List ClaimAnalysis) : MemoryBank :=
  fun t => if t = topic then some claims else cache t

/-- Whether `if cached_result:` takes the miss branch: the lookup returned
`None` or a falsy (empty) list. -/
def cacheMiss (cache : MemoryBank) (topic : String) : Bool :=
  match MemoryBank.get cache topic with
  | none => true
  | some cs => cs.isEmpty

/-- Pydantic construction of a `ClaimAnalysis`
(`claim=fact['claim']`, `verdict="MISINFORMATION"`,
`confidence=float(...)`, `explanation=explanation`, `evidence=selected`,
`cached=False`): the `claim` and `explanation` fields must be strings and
`confidence` must lie in `[0, 1]` (`ge=0.0, le=1.0`), otherwise pydantic
raises a `ValidationError` — the value is rejected, not clamped. The range
check `0 ≤ conf ∧ conf ≤ 1` is phrased on the numerator and denominator so
that it is kernel-computable; `mkClaimAnalysis_cond_iff` below shows it
equivalent to the interval bounds. -/
def mkClaimAnalysis (claimJ : Json) (conf : Rat) (explanationJ : Json)
    (evidence : List Evidence) : Except Unit ClaimAnalysis :=
  match claimJ, explanationJ with
  | .str c, .str ex =>
    if 0 ≤ conf.num ∧ conf.num ≤ (conf.den : Int) then
      .ok { claim := c, verdict := "MISINFORMATION", confidence := conf,
            explanation := ex, evidence := evidence, cached := false }
    else .error ()
  | _, _ => .error ()

/-- Evidence selection inside the per-fact loop of `CoordinatorAgent.analyze`:
`high_cred_evidence = [e for e in evidence if credibility_map.get(e.url) ==
"high"]; selected_evidence = (high_cred_evidence or evidence)[:3]`. -/
def selectedEvidence (evidence : List Evidence)
    (credMap : List (String × String)) : List Evidence :=
  let highCred := evidence.filter (fun e => dictGet credMap e.url == some "high")
  (if highCred.isEmpty then evidence else highCred).take 3

/-- The per-fact loop of `CoordinatorAgent.analyze` (step 4): filter the
high-credibility evidence, select at most three items, generate the
explanation (the k-th explanation call), and construct the `ClaimAnalysis`.
Any uncaught exception (`fact['claim']` on a malformed fact, `float(...)` on
a non-numeric confidence, pydantic validation) aborts the whole loop. -/
def CoordinatorAgent.processFacts (col : Collab) (evidence : List Evidence)
    (credMap : List (String × String)) :
    Nat → List Json → Except Unit (List ClaimAnalysis)
  | _, [] => .ok []
  | k, f :: fs => do
    let selected := selectedEvidence evidence credMap
    let claimJ ← Json.getItem f "claim"
    let reasoningJ ← Json.getDefault f "reasoning" (Json.str "")
    let explanationJ := ExplainerAgent.explain (col.explainLLM k) claimJ reasoningJ selected
    let confJ ← Json.getDefault f "confidence" (Json.num (mkRat 4 5))
    let conf ← pyFloat confJ
    let ca ← mkClaimAnalysis claimJ conf explanationJ selected
    let rest ← CoordinatorAgent.processFacts col evidence credMap (k + 1) fs
    pure (ca :: rest)

/-- The cache-miss path of `CoordinatorAgent.analyze` (steps 2–5): gather
evidence (empty evidence short-circuits to `[]` without caching), assess
credibility and fact-check, process at most the first three facts, store the
result only when it is non-empty. Returns the claims together with the
resulting cache state. -/
def CoordinatorAgent.analyzeMiss (col : Collab) (cache : MemoryBank)
    (topic : String) : Except Unit (List ClaimAnalysis × MemoryBank) :=
  let evidence := EvidenceGathererAgent.gather col.searchFn topic
  if evidence.isEmpty then .ok ([], cache)
  else do
    let credMap ← CredibilityAssessorAgent.assess evidence
    let facts := FactCheckerAgent.check col.factLLM col.parse topic evidence
    let claims ← CoordinatorAgent.processFacts col evidence credMap 0 (facts.take 3)
    if claims.isEmpty then .ok (claims, cache)
    else .ok (claims, MemoryBank.store cache topic claims)

/-- `CoordinatorAgent.analyze`: check the memory bank first (`if
cached_result:` — a `None` or empty entry falls through to the miss path),
returning a hit as-is with the cache untouched. -/
def CoordinatorAgent.analyze (col : Collab) (cache : MemoryBank)
    (topic : String) : Except Unit (List ClaimAnalysis × MemoryBank) :=
  match MemoryBank.get cache topic with
  | some cs =>
    if cs.isEmpty then CoordinatorAgent.analyzeMiss col cache topic
    else .ok (cs, cache)
  | none => CoordinatorAgent.analyzeMiss col cache topic

/-- The response-level "served from cache" signal of `api.py`:
`any(claim.cached for claim in claims) if claims else False`. -/
def apiServedFromCache (claims : List ClaimAnalysis) : Bool :=
  if claims.isEmpty then false else claims.any (·.cached)

/-! ### Spec-side reference definitions

The following definitions transcribe the *spec's words* ("total mapping over
every input URL, keys matching the input URLs exactly once each",
"deduplicates by URL, first occurrence wins") rather than the source, to be
compared with the source-derived functions above. -/

/-- First-occurrence deduplication of a key list, written as in the spec:
keep a key, then dedup the remainder with that key removed. -/
def specDedupKeys : List String → List String
  | [] => []
  | u :: us => u :: specDedupKeys (us.filter (fun x => x != u))
termination_by l => l.length
decreasing_by
simp only [List.length_cons]
exact Nat.lt_succ_of_le (List.length_filter_le _ _)

/-- First-occurrence deduplication of evidence by URL, written as in the
spec. -/
def specDedupByUrl : List Evidence → List Evidence
  | [] => []
  | e :: es => e :: specDedupByUrl (es.filter (fun x => x.url != e.url))
termination_by l => l.length
decreasing_by
simp only [List.length_cons]
exact Nat.lt_succ_of_le (List.length_filter_le _ _)

/-- The converted evidence of the raw search results whose `href` is present
and truthy — the items the gatherer's dedup loop considers at all. -/
def validEvidence (rs : List SearchResult) : List Evidence :=
  rs.filterMap (fun r => match r.href with
    | some u => if u = "" then none else some (mkEvidence r)
    | none => none)

/-! ### Concrete scenario fixtures (used by counterexamples and witnesses) -/

/-- A search result with a well-formed URL. -/
def sr1 : SearchResult := ⟨some "https://www.bbc.com/news/x", some "BBC", some "body"⟩

/-- A search backend returning one result for the topic query only. -/
def searchOne : String → List SearchResult :=
  fun q => if q = "vax" then [sr1] else []

/-- The evidence item `gather searchOne "vax"` produces. -/
def ev1 : Evidence := ⟨"BBC", "https://www.bbc.com/news/x", "body"⟩

/-- A well-formed verifier fact with confidence 0.9. -/
def factJson1 : Json :=
  .obj [("claim", .str "Vaccines cause autism"), ("verdict", .str "MISINFORMATION"),
        ("confidence", .num (mkRat 9 10)), ("reasoning", .str "because")]

/-- A JSON decoder stub recognising the fixture response text. -/
def parse1 : String → Option Json :=
  fun s => if s = "RESP" then some (.arr [factJson1]) else none

/-- A fully well-behaved collaborator bundle. -/
def colGood : Collab := ⟨searchOne, fun _ => .ok "RESP", fun _ _ => .ok "explained", parse1⟩

/-- The empty memory bank. -/
def emptyCache : MemoryBank := fun _ => none

/-- The claim analysis the `colGood` scenario produces. -/
def ca1 : ClaimAnalysis :=
  ⟨"Vaccines cause autism", "MISINFORMATION", mkRat 9 10, "explained", [ev1], false⟩

/-- A search result whose URL has a scheme (three `/`-segments). -/
def srX : SearchResult := ⟨some "https://x.com/a", some "T", some "S"⟩

/-- Collaborators where the verifier's response parses as `[{}]`: a JSON
array whose only element is a dict with no `claim` key. -/
def colBad : Collab :=
  ⟨fun q => if q = "t" then [srX] else [], fun _ => .ok "[\x7b\x7d]", fun _ _ => .error (),
   fun s => if s = "[\x7b\x7d]" then some (.arr [.obj []]) else none⟩

/-- A verifier fact whose confidence 1.5 lies outside `[0, 1]`. -/
def factJsonOver : Json :=
  .obj [("claim", .str "c"), ("confidence", .num (mkRat 3 2)), ("reasoning", .str "r")]

/-- Collaborators where the verifier reports confidence 1.5. -/
def colOver : Collab :=
  ⟨fun q => if q = "t" then [srX] else [], fun _ => .ok "RESP", fun _ _ => .ok "e",
   fun s => if s = "RESP" then some (.arr [factJsonOver]) else none⟩

/-- A memory bank holding one previously stored entry. -/
def cacheOne : MemoryBank := fun t => if t = "vax" then some [ca1] else none

/-- Collaborators whose search backend finds nothing. -/
def colNoEvidence : Collab :=
  ⟨fun _ => [], fun _ => .error (), fun _ _ => .error (), fun _ => none⟩

/-- A language model that always fails. -/
def llmDown : String → Except Unit String := fun _ => .error ()

/-- A JSON decoder stub returning a non-array value for the text `OBJ`. -/
def parseObj : String → Option Json :=
  fun s => if s = "OBJ" then some (.obj [("k", .str "v")]) else none

/-- What one loop iteration of `CoordinatorAgent.analyze` guarantees about
the claim built from fact `f` (the `k`-th processed fact): the claim text is
the fact's `claim` string, the verdict is the constant `MISINFORMATION`,
`cached` is false, the attached evidence is the credibility-based selection,
the confidence comes from the fact's `confidence` entry (the rational 4/5,
i.e. 0.8, when absent) and lies in `[0, 1]`, and the explanation is the
explainer's output on the claim, the fact's `reasoning` entry and the
selected evidence. -/
def PerClaimSpec (col : Collab) (evidence : List Evidence)
    (credMap : List (String × String)) (k : Nat) (f : Json)
    (c : ClaimAnalysis) : Prop :=
  Json.getItem f "claim" = .ok (.str c.claim) ∧
  c.verdict = "MISINFORMATION" ∧
  c.cached = false ∧
  c.evidence = selectedEvidence evidence credMap ∧
  (∃ cj, Json.getDefault f "confidence" (Json.num (mkRat 4 5)) = .ok cj ∧
    pyFloat cj = .ok c.confidence) ∧
  (Json.hasKey f "confidence" = false → c.confidence = mkRat 4 5) ∧
  0 ≤ c.confidence ∧ c.confidence ≤ 1 ∧
  (∃ rj, Json.getDefault f "reasoning" (Json.str "") = .ok rj ∧
    ExplainerAgent.explain (col.explainLLM k) (.str c.claim) rj
      (selectedEvidence evidence credMap) = .str c.explanation)

/-- Well-formedness of one verifier fact, as the coordinator's loop body
requires it: a JSON dict with a string `claim`, a `reasoning` entry that is
absent or a string, and a `confidence` entry that is absent or numeric with a
value in `[0, 1]`. Facts violating this make the loop raise
(`KeyError`/`TypeError`/pydantic `ValidationError`). -/
def FactOk (f : Json) : Prop :=
  (∃ s, Json.getItem f "claim" = .ok (Json.str s)) ∧
  (∃ r, Json.getDefault f "reasoning" (Json.str "") = .ok (Json.str r)) ∧
  (∃ cj q, Json.getDefault f "confidence" (Json.num (mkRat 4 5)) = .ok cj ∧
    pyFloat cj = .ok q ∧ 0 ≤ q ∧ q ≤ 1)

end MisinfoGuard

/-! ## Theorems -/

namespace MisinfoGuard

/-- The kernel-computable range check of `mkClaimAnalysis` is exactly the
interval condition `0 ≤ conf ∧ conf ≤ 1`. -/
theorem mkClaimAnalysis_cond_iff (conf : Rat) :
    (0 ≤ conf.num ∧ conf.num ≤ (conf.den : Int)) ↔ (0 ≤ conf ∧ conf ≤ 1) := by
  have h1 : 0 ≤ conf.num ↔ 0 ≤ conf := Rat.num_nonneg
  have h2 : conf.num ≤ (conf.den : Int) ↔ conf ≤ 1 := by
    constructor
    · intro h
      have hd : (0 : Rat) < (conf.den : Rat) := by exact_mod_cast conf.den_pos
      rw [← Rat.num_div_den conf, div_le_one hd]
      exact_mod_cast h
    · intro h
      have hd : (0 : Rat) < (conf.den : Rat) := by exact_mod_cast conf.den_pos
      rw [← Rat.num_div_den conf, div_le_one hd] at h
      exact_mod_cast h
  rw [h1, h2]

/-- Inversion of a successful pydantic construction. -/
theorem mkClaimAnalysis_ok {claimJ : Json} {conf : Rat} {explanationJ : Json}
    {evidence : List Evidence} {ca : ClaimAnalysis}
    (h : mkClaimAnalysis claimJ conf explanationJ evidence = .ok ca) :
    claimJ = .str ca.claim ∧ explanationJ = .str ca.explanation ∧
    ca.confidence = conf ∧ ca.verdict = "MISINFORMATION" ∧
    ca.evidence = evidence ∧ ca.cached = false ∧ 0 ≤ conf ∧ conf ≤ 1 := by
  cases claimJ <;> cases explanationJ <;> simp only [mkClaimAnalysis] at h <;>
    try exact Except.noConfusion h
  split at h
  next hcond =>
    cases h
    exact ⟨rfl, rfl, rfl, rfl, rfl, rfl, (mkClaimAnalysis_cond_iff conf).mp hcond⟩
  next => exact Except.noConfusion h

/-- Inversion of a successful `Except` bind. -/
theorem except_bind_ok {α β : Type} {x : Except Unit α} {g : α → Except Unit β}
    {b : β} (h : (x >>= g) = .ok b) : ∃ a, x = .ok a ∧ g a = .ok b := by
  cases x with
  | error e => simp [Bind.bind, Except.bind] at h
  | ok a => exact ⟨a, rfl, by simpa [Bind.bind, Except.bind] using h⟩

/-- A successful `fact['claim']` lookup forces the fact to be a JSON dict. -/
theorem getItem_ok_obj {f : Json} {key : String} {v : Json}
    (h : Json.getItem f key = .ok v) : ∃ kvs, f = .obj kvs := by
  cases f <;> first | exact ⟨_, rfl⟩ | exact Except.noConfusion h

/-- Everything a successful run of the per-fact loop guarantees, claim by
claim: one output claim per input fact, in order, each satisfying
`PerClaimSpec` at its position. -/
theorem processFacts_ok_spec (col : Collab) (evidence : List Evidence)
    (credMap : List (String × String)) :
    ∀ (fs : List Json) (k : Nat) (res : List ClaimAnalysis),
      CoordinatorAgent.processFacts col evidence credMap k fs = .ok res →
      res.length = fs.length ∧
      (∀ i (hi : i < res.length) (f : Json), fs[i]? = some f →
        PerClaimSpec col evidence credMap (k + i) f res[i]) := by
  intro fs
  induction fs with
  | nil =>
    intro k res h
    simp only [CoordinatorAgent.processFacts] at h
    cases h
    exact ⟨rfl, fun i hi => absurd hi (by simp)⟩
  | cons f fs ih =>
    intro k res h
    simp only [CoordinatorAgent.processFacts] at h
    obtain ⟨claimJ, hclaim, h⟩ := except_bind_ok h
    obtain ⟨reasoningJ, hreason, h⟩ := except_bind_ok h
    obtain ⟨confJ, hconf, h⟩ := except_bind_ok h
    obtain ⟨conf, hpf, h⟩ := except_bind_ok h
    obtain ⟨ca, hmk, h⟩ := except_bind_ok h
    obtain ⟨rest, hrest, h⟩ := except_bind_ok h
    have hres : res = ca :: rest := by
      simpa [Pure.pure, Except.pure] using h.symm
    subst hres
    obtain ⟨ihlen, ihspec⟩ := ih (k + 1) rest hrest
    refine ⟨by simp [ihlen], ?_⟩
    intro i hi g hg
    obtain ⟨hcl, hex, hconf_eq, hverd, hev, hcached, hb1, hb2⟩ := mkClaimAnalysis_ok hmk
    cases i with
    | zero =>
      obtain rfl : f = g := by simpa using hg
      have hca0 : (ca :: rest)[0] = ca := rfl
      rw [Nat.add_zero, hca0]
      subst hcl
      refine ⟨hclaim, hverd, hcached, hev, ⟨confJ, hconf, by rw [hconf_eq]; exact hpf⟩,
        ?_, by rw [hconf_eq]; exact hb1, by rw [hconf_eq]; exact hb2,
        ⟨reasoningJ, hreason, hex⟩⟩
      intro hk
      rw [hconf_eq]
      obtain ⟨kvs, rfl⟩ := getItem_ok_obj hclaim
      simp only [Json.hasKey] at hk
      have hfind : kvs.find? (fun p => p.1 == "confidence") = none := by
        rw [List.find?_eq_none]
        intro p hp hpk
        have hany : kvs.any (fun p => p.1 == "confidence") = true :=
          List.any_eq_true.mpr ⟨p, hp, hpk⟩
        rw [hany] at hk
        exact Bool.noConfusion hk
      simp only [Json.getDefault, hfind] at hconf
      cases hconf
      simpa [pyFloat] using hpf.symm
    | succ n =>
      have hn : n < rest.length := by simpa [Nat.succ_lt_succ_iff] using hi
      have hg2 : fs[n]? = some g := by simpa using hg
      have hspec := ihspec n hn g hg2
      have harith : k + (n + 1) = k + 1 + n := by omega
      rw [harith]
      simpa using hspec

/-- On a miss (`if cached_result:` falsy) `analyze` runs the miss path. -/
theorem analyze_eq_miss (col : Collab) (cache : MemoryBank) (topic : String)
    (hmiss : cacheMiss cache topic = true) :
    CoordinatorAgent.analyze col cache topic =
      CoordinatorAgent.analyzeMiss col cache topic := by
  rw [CoordinatorAgent.analyze]
  cases hc : MemoryBank.get cache topic with
  | none => rfl
  | some cs =>
    simp only [cacheMiss, hc] at hmiss
    simp [hmiss]

/-- Inversion of a successful miss-path run with non-empty evidence: the
credibility assessment succeeded, the per-fact loop produced the result from
the first three verifier facts, and the cache was written exactly when the
result is non-empty. -/
theorem analyzeMiss_ok_inv {col : Collab} {cache : MemoryBank} {topic : String}
    {res : List ClaimAnalysis} {cache2 : MemoryBank}
    (h : CoordinatorAgent.analyzeMiss col cache topic = .ok (res, cache2))
    (hne : EvidenceGathererAgent.gather col.searchFn topic ≠ []) :
    ∃ credMap,
      CredibilityAssessorAgent.assess
        (EvidenceGathererAgent.gather col.searchFn topic) = .ok credMap ∧
      CoordinatorAgent.processFacts col
        (EvidenceGathererAgent.gather col.searchFn topic) credMap 0
        ((FactCheckerAgent.check col.factLLM col.parse topic
          (EvidenceGathererAgent.gather col.searchFn topic)).take 3) = .ok res ∧
      ((res = [] ∧ cache2 = cache) ∨
        (res ≠ [] ∧ cache2 = MemoryBank.store cache topic res)) := by
  rw [CoordinatorAgent.analyzeMiss] at h
  rw [if_neg (by simpa [List.isEmpty_iff] using hne)] at h
  obtain ⟨credMap, hcm, h⟩ := except_bind_ok h
  obtain ⟨claims, hpc, h⟩ := except_bind_ok h
  refine ⟨credMap, hcm, ?_⟩
  split at h
  next hemp =>
    cases h
    exact ⟨hpc, Or.inl ⟨List.isEmpty_iff.mp hemp, rfl⟩⟩
  next hemp =>
    cases h
    exact ⟨hpc, Or.inr ⟨by simpa [List.isEmpty_iff] using hemp, rfl⟩⟩

/-- C7: on a cache miss, if the gatherer finds no evidence `analyze` returns
the empty sequence with the cache left untouched; and in every successful run
the cache is written only when the resulting claim sequence is non-empty. -/
theorem analyze_no_evidence_empty_no_store (col : Collab) (cache : MemoryBank)
    (topic : String) (hmiss : cacheMiss cache topic = true) :
    (EvidenceGathererAgent.gather col.searchFn topic = [] →
      CoordinatorAgent.analyze col cache topic = .ok ([], cache)) ∧
    (∀ res cache2, CoordinatorAgent.analyze col cache topic = .ok (res, cache2) →
      res = [] → cache2 = cache) := by
  have hma := analyze_eq_miss col cache topic hmiss
  constructor
  · intro hg
    rw [hma, CoordinatorAgent.analyzeMiss, hg]
    rfl
  · intro res cache2 hok hres
    subst hres
    rw [hma] at hok
    by_cases hg : EvidenceGathererAgent.gather col.searchFn topic = []
    · rw [CoordinatorAgent.analyzeMiss, hg] at hok
      cases hok
      rfl
    · obtain ⟨credMap, _, _, hcases⟩ := analyzeMiss_ok_inv hok hg
      rcases hcases with ⟨_, hc⟩ | ⟨hne, _⟩
      · exact hc
      · exact absurd rfl hne

/-- C7 witness: with a search backend that finds nothing, `analyze` of an
uncached topic returns the empty sequence and the empty cache is unchanged. -/
theorem analyze_no_evidence_empty_no_store_witness :
    CoordinatorAgent.analyze colNoEvidence emptyCache "t" = .ok ([], emptyCache) :=
  (analyze_no_evidence_empty_no_store colNoEvidence emptyCache "t" rfl).1 rfl

/-- C6: on an actual cache hit (a non-empty stored entry, all of whose claims
were stored with `cached = false`, as the pipeline always stores them),
`analyze` returns the stored sequence as-is with the cache unmodified, and
the response-level "served from cache" signal of `api.py` evaluates to
`false` — it never triggers on a hit. -/
theorem analyze_cache_hit_returns_as_is (col : Collab) (cache : MemoryBank)
    (topic : String) (cs : List ClaimAnalysis)
    (hGood : ∀ t cs2, cache t = some cs2 → ∀ c ∈ cs2, c.cached = false)
    (hhit : cache topic = some cs) (hne : cs ≠ []) :
    CoordinatorAgent.analyze col cache topic = .ok (cs, cache) ∧
    apiServedFromCache cs = false := by
  constructor
  · rw [CoordinatorAgent.analyze]
    have : MemoryBank.get cache topic = some cs := hhit
    rw [this]
    simp [List.isEmpty_iff, hne]
  · have hall := hGood topic cs hhit
    rw [apiServedFromCache, if_neg (by simpa [List.isEmpty_iff] using hne)]
    rw [List.any_eq_false]
    intro c hc
    simp [hall c hc]

/-- C6 witness: a cache holding one previously stored (hence `cached=false`)
claim for topic `vax` is returned as-is and the API signal stays `false`. -/
theorem analyze_cache_hit_returns_as_is_witness :
    CoordinatorAgent.analyze colGood cacheOne "vax" = .ok ([ca1], cacheOne) ∧
    apiServedFromCache [ca1] = false := by
  refine analyze_cache_hit_returns_as_is colGood cacheOne "vax" [ca1] ?_ rfl (by simp)
  intro t cs2 h c hc
  by_cases ht : t = "vax"
  · subst ht
    simp only [cacheOne, if_pos rfl] at h
    cases h
    simp only [List.mem_singleton] at hc
    subst hc
    rfl
  · simp [cacheOne, ht] at h

/-- The evidence attached to a claim is an in-order subsequence of the
gathered evidence, of length at most three. -/
theorem selectedEvidence_sublist (evidence : List Evidence)
    (credMap : List (String × String)) :
    (selectedEvidence evidence credMap).Sublist evidence ∧
    (selectedEvidence evidence credMap).length ≤ 3 := by
  constructor
  · refine List.Sublist.trans (List.take_sublist _ _) ?_
    split
    · exact List.Sublist.refl _
    · exact List.filter_sublist _
  · simp [selectedEvidence]

/-- A successful `analyze` run is either a hit returned as-is or a successful
miss-path run. -/
theorem analyze_ok_inv {col : Collab} {cache : MemoryBank} {topic : String}
    {res : List ClaimAnalysis} {cache2 : MemoryBank}
    (hok : CoordinatorAgent.analyze col cache topic = .ok (res, cache2)) :
    (∃ cs, MemoryBank.get cache topic = some cs ∧ cs ≠ [] ∧ res = cs ∧
      cache2 = cache) ∨
    (cacheMiss cache topic = true ∧
      CoordinatorAgent.analyzeMiss col cache topic = .ok (res, cache2)) := by
  rw [CoordinatorAgent.analyze] at hok
  cases hc : MemoryBank.get cache topic with
  | none => exact Or.inr ⟨by simp [cacheMiss, hc], by rwa [hc] at hok⟩
  | some cs =>
    rw [hc] at hok
    replace hok : (if cs.isEmpty = true then CoordinatorAgent.analyzeMiss col cache topic
        else Except.ok (cs, cache)) = Except.ok (res, cache2) := hok
    by_cases hemp : cs.isEmpty
    · rw [if_pos hemp] at hok
      exact Or.inr ⟨by simp [cacheMiss, hc, hemp], hok⟩
    · rw [if_neg hemp] at hok
      have hpair : cs = res ∧ cache = cache2 := by
        simpa [Prod.ext_iff] using hok
      obtain ⟨rfl, rfl⟩ := hpair
      exact Or.inl ⟨cs, rfl, by simpa [List.isEmpty_iff] using hemp, rfl, rfl⟩

/-- C4: on a cache miss with non-empty evidence, a successful `analyze` run
builds exactly one claim per fact for the first three verifier facts, in
verifier order (index-wise correspondence through `PerClaimSpec`: claim text
from the fact, `cached = false`, confidence from the verifier defaulting to
4/5 = 0.8, evidence from the credibility-based selection), and every attached
evidence list is an in-order subsequence of the gathered evidence of length
at most three. -/
theorem analyze_claim_construction (col : Collab) (cache : MemoryBank)
    (topic : String) (res : List ClaimAnalysis) (cache2 : MemoryBank)
    (hmiss : cacheMiss cache topic = true)
    (hne : EvidenceGathererAgent.gather col.searchFn topic ≠ [])
    (hok : CoordinatorAgent.analyze col cache topic = .ok (res, cache2)) :
    ∃ credMap,
      CredibilityAssessorAgent.assess
        (EvidenceGathererAgent.gather col.searchFn topic) = .ok credMap ∧
      res.length = min 3 (FactCheckerAgent.check col.factLLM col.parse topic
        (EvidenceGathererAgent.gather col.searchFn topic)).length ∧
      (∀ i (hi : i < res.length) (f : Json),
        (FactCheckerAgent.check col.factLLM col.parse topic
          (EvidenceGathererAgent.gather col.searchFn topic))[i]? = some f →
        PerClaimSpec col (EvidenceGathererAgent.gather col.searchFn topic)
          credMap i f res[i]) ∧
      (∀ c ∈ res, c.evidence.Sublist (EvidenceGathererAgent.gather col.searchFn topic) ∧
        c.evidence.length ≤ 3) := by
  rw [analyze_eq_miss col cache topic hmiss] at hok
  obtain ⟨credMap, hcm, hpc, _⟩ := analyzeMiss_ok_inv hok hne
  obtain ⟨hlen, hspec⟩ := processFacts_ok_spec col _ credMap _ 0 res hpc
  have hlen3 : res.length = min 3 (FactCheckerAgent.check col.factLLM col.parse topic
      (EvidenceGathererAgent.gather col.searchFn topic)).length := by
    rw [hlen, List.length_take]
  refine ⟨credMap, hcm, hlen3, ?_, ?_⟩
  · intro i hi f hf
    have hi3 : i < 3 := by omega
    have hf2 : ((FactCheckerAgent.check col.factLLM col.parse topic
        (EvidenceGathererAgent.gather col.searchFn topic)).take 3)[i]? = some f := by
      rwa [List.getElem?_take_of_lt hi3]
    have := hspec i hi f hf2
    simpa using this
  · intro c hc
    obtain ⟨⟨i, hi⟩, rfl⟩ := List.mem_iff_get.mp hc
    have hi' : i < ((FactCheckerAgent.check col.factLLM col.parse topic
        (EvidenceGathererAgent.gather col.searchFn topic)).take 3).length := by
      omega
    have hf := List.getElem?_eq_getElem hi'
    set f := ((FactCheckerAgent.check col.factLLM col.parse topic
        (EvidenceGathererAgent.gather col.searchFn topic)).take 3)[i] with hfdef
    have hps := hspec i hi f hf
    obtain ⟨-, -, -, hev, -⟩ := hps
    have hsel := selectedEvidence_sublist
      (EvidenceGathererAgent.gather col.searchFn topic) credMap
    have hget : (res.get ⟨i, hi⟩) = res[i] := rfl
    rw [hget, hev]
    exact hsel

/-- C4 witness: the concrete `colGood` scenario (one BBC evidence item, one
verifier fact with confidence 0.9) instantiates the claim-construction
theorem. -/
theorem analyze_claim_construction_witness :
    ∃ credMap,
      CredibilityAssessorAgent.assess
        (EvidenceGathererAgent.gather colGood.searchFn "vax") = .ok credMap ∧
      ([ca1] : List ClaimAnalysis).length =
        min 3 (FactCheckerAgent.check colGood.factLLM colGood.parse "vax"
          (EvidenceGathererAgent.gather colGood.searchFn "vax")).length ∧
      (∀ i (hi : i < ([ca1] : List ClaimAnalysis).length) (f : Json),
        (FactCheckerAgent.check colGood.factLLM colGood.parse "vax"
          (EvidenceGathererAgent.gather colGood.searchFn "vax"))[i]? = some f →
        PerClaimSpec colGood (EvidenceGathererAgent.gather colGood.searchFn "vax")
          credMap i f ([ca1] : List ClaimAnalysis)[i]) ∧
      (∀ c ∈ ([ca1] : List ClaimAnalysis),
        c.evidence.Sublist (EvidenceGathererAgent.gather colGood.searchFn "vax") ∧
        c.evidence.length ≤ 3) :=
  analyze_claim_construction colGood emptyCache "vax" [ca1]
    (MemoryBank.store emptyCache "vax" [ca1]) rfl (by decide) rfl

/-- C5 (amended): every `ClaimAnalysis` a successful `analyze` run returns
has its confidence inside `[0, 1]` — but because construction *validates*
(rejects) out-of-range values rather than clamping them (see the
counterexample `analyze_error_on_out_of_range_confidence`). The hypothesis on
the cache states that stored entries came from earlier pipeline runs, which
only ever store validated claims. -/
theorem analyze_confidence_in_range (col : Collab) (cache : MemoryBank)
    (topic : String) (res : List ClaimAnalysis) (cache2 : MemoryBank)
    (hcache : ∀ t cs, cache t = some cs → ∀ c ∈ cs,
      0 ≤ c.confidence ∧ c.confidence ≤ 1)
    (hok : CoordinatorAgent.analyze col cache topic = .ok (res, cache2)) :
    ∀ c ∈ res, 0 ≤ c.confidence ∧ c.confidence ≤ 1 := by
  rcases analyze_ok_inv hok with ⟨cs, hget, _, rfl, rfl⟩ | ⟨_, hmok⟩
  · exact hcache topic res hget
  · by_cases hg : EvidenceGathererAgent.gather col.searchFn topic = []
    · rw [CoordinatorAgent.analyzeMiss, hg] at hmok
      replace hmok : Except.ok (([] : List ClaimAnalysis), cache) =
          Except.ok (res, cache2) := hmok
      have hpair : ([] : List ClaimAnalysis) = res ∧ cache = cache2 := by
        simpa [Prod.ext_iff] using hmok
      obtain ⟨rfl, rfl⟩ := hpair
      intro c hc
      exact absurd hc (by simp)
    · obtain ⟨credMap, _, hpc, _⟩ := analyzeMiss_ok_inv hmok hg
      obtain ⟨hlen, hspec⟩ := processFacts_ok_spec col _ credMap _ 0 res hpc
      intro c hcmem
      obtain ⟨⟨i, hi⟩, rfl⟩ := List.mem_iff_get.mp hcmem
      have hi' : i < ((FactCheckerAgent.check col.factLLM col.parse topic
          (EvidenceGathererAgent.gather col.searchFn topic)).take 3).length := by
        omega
      have hf := List.getElem?_eq_getElem hi'
      obtain ⟨-, -, -, -, -, -, hb1, hb2, -⟩ := hspec i hi _ hf
      exact ⟨hb1, hb2⟩

/-- C5 counterexample: when the verifier reports confidence 1.5, the claim
(as stated) requires the pipeline to clamp it to `[0, 1]`; instead the
pydantic range validation rejects the value and the `ValidationError`
escapes `analyze` — no claim with a clamped confidence is ever produced. -/
theorem analyze_error_on_out_of_range_confidence :
    CoordinatorAgent.analyze colOver emptyCache "t" = .error () := by rfl

/-- C5 witness: the in-range scenario produces a claim whose confidence 0.9
satisfies the amended bounds. -/
theorem analyze_confidence_in_range_witness :
    0 ≤ ca1.confidence ∧ ca1.confidence ≤ 1 :=
  analyze_confidence_in_range colGood emptyCache "vax" [ca1]
    (MemoryBank.store emptyCache "vax" [ca1])
    (fun _ _ h => Option.noConfusion h) rfl ca1 (by simp)

/-- Domain extraction succeeds when the URL contains no `/` or splits into at
least three segments. -/
theorem domainOf_ok_of {url : String}
    (h : url.data.contains '/' = true → 3 ≤ (splitOnChar '/' url.data).length) :
    ∃ d, domainOf url = .ok d := by
  rw [domainOf]
  by_cases hc : url.data.contains '/'
  · rw [if_pos hc]
    cases hsplit : (splitOnChar '/' url.data).get? 2 with
    | some d => exact ⟨d, rfl⟩
    | none =>
      exfalso
      rw [List.get?_eq_none] at hsplit
      have := h hc
      omega
  · rw [if_neg hc]
    exact ⟨url.data, rfl⟩

/-- The credibility loop succeeds on any evidence whose URLs are all
extractable. -/
theorem assessGo_ok_of :
    ∀ (evidence : List Evidence),
      (∀ e ∈ evidence, e.url.data.contains '/' = true →
        3 ≤ (splitOnChar '/' e.url.data).length) →
      ∀ m, ∃ m', CredibilityAssessorAgent.assessGo evidence m = .ok m' := by
  intro evidence
  induction evidence with
  | nil => exact fun _ m => ⟨m, rfl⟩
  | cons ev rest ih =>
    intro h m
    obtain ⟨d, hd⟩ := domainOf_ok_of (h ev (List.mem_cons_self ev rest))
    obtain ⟨m', hm'⟩ := ih (fun e he hc => h e (List.mem_cons_of_mem _ he) hc)
      (dictInsert m ev.url (classify d))
    exact ⟨m', by simp only [CredibilityAssessorAgent.assessGo, hd]; exact hm'⟩

/-- The per-fact loop succeeds on any sequence of well-formed facts. -/
theorem processFacts_ok_of_factOk (col : Collab) (evidence : List Evidence)
    (credMap : List (String × String)) :
    ∀ (fs : List Json), (∀ f ∈ fs, FactOk f) → ∀ k,
      ∃ res, CoordinatorAgent.processFacts col evidence credMap k fs = .ok res := by
  intro fs
  induction fs with
  | nil => exact fun _ k => ⟨[], rfl⟩
  | cons f fs ih =>
    intro h k
    obtain ⟨⟨s, hs⟩, ⟨r, hr⟩, ⟨cj, q, hcj, hq, hq0, hq1⟩⟩ :=
      h f (List.mem_cons_self f fs)
    obtain ⟨rest, hrest⟩ := ih (fun g hg => h g (List.mem_cons_of_mem _ hg)) (k + 1)
    have hexp : ∃ ex, ExplainerAgent.explain (col.explainLLM k) (.str s) (.str r)
        (selectedEvidence evidence credMap) = .str ex := by
      cases hllm : col.explainLLM k (explainPrompt (Json.str s).render
          (Json.str r).render (selectedEvidence evidence credMap)) with
      | ok t => exact ⟨t, by rw [ExplainerAgent.explain, hllm]⟩
      | error e => exact ⟨r, by rw [ExplainerAgent.explain, hllm]⟩
    obtain ⟨ex, hex⟩ := hexp
    have hmk : mkClaimAnalysis (.str s) q (.str ex)
        (selectedEvidence evidence credMap) =
        .ok ⟨s, "MISINFORMATION", q, ex, selectedEvidence evidence credMap, false⟩ := by
      simp only [mkClaimAnalysis]
      rw [if_pos ((mkClaimAnalysis_cond_iff q).mpr ⟨hq0, hq1⟩)]
    refine ⟨⟨s, "MISINFORMATION", q, ex, selectedEvidence evidence credMap, false⟩ :: rest, ?_⟩
    simp only [CoordinatorAgent.processFacts, hs, hr, hcj, hex, hq, hmk, hrest,
      Bind.bind, Except.bind, Pure.pure, Except.pure]

/-- C1 (amended): `analyze` never raises provided the pipeline's inputs are
well-formed in the sense the loop body assumes — every gathered URL is
domain-extractable and every processed verifier fact is a dict with a string
claim, string-or-absent reasoning and an in-range numeric-or-absent
confidence. Within that envelope, verifier collaborator/parse failures
(absorbed into an empty fact list) and explainer failures (absorbed into the
reasoning fallback) degrade the output without an exception. The
counterexample `analyze_throws_on_malformed_fact` shows the envelope is
needed: a verifier output that *parses* but is malformed (`[{}]`) escapes
`analyze` as an exception. -/
theorem analyze_fail_soft_of_wellformed (col : Collab) (cache : MemoryBank)
    (topic : String)
    (hurl : ∀ e ∈ EvidenceGathererAgent.gather col.searchFn topic,
      e.url.data.contains '/' = true → 3 ≤ (splitOnChar '/' e.url.data).length)
    (hfacts : ∀ f ∈ (FactCheckerAgent.check col.factLLM col.parse topic
      (EvidenceGathererAgent.gather col.searchFn topic)).take 3, FactOk f) :
    ∃ res cache2, CoordinatorAgent.analyze col cache topic = .ok (res, cache2) := by
  by_cases hmiss : cacheMiss cache topic = true
  · rw [analyze_eq_miss col cache topic hmiss]
    by_cases hg : EvidenceGathererAgent.gather col.searchFn topic = []
    · exact ⟨[], cache, by rw [CoordinatorAgent.analyzeMiss, hg]; rfl⟩
    · obtain ⟨credMap, hcm⟩ := assessGo_ok_of _ hurl []
      obtain ⟨res, hpc⟩ := processFacts_ok_of_factOk col
        (EvidenceGathererAgent.gather col.searchFn topic) credMap _ hfacts 0
      refine ⟨res, if res.isEmpty then cache else MemoryBank.store cache topic res, ?_⟩
      rw [CoordinatorAgent.analyzeMiss,
        if_neg (by simpa [List.isEmpty_iff] using hg)]
      have hcm' : CredibilityAssessorAgent.assess
          (EvidenceGathererAgent.gather col.searchFn topic) = .ok credMap := hcm
      simp only [hcm', hpc, Bind.bind, Except.bind]
      by_cases hre : res.isEmpty <;> simp [hre]
  · cases hc : MemoryBank.get cache topic with
    | none => exact absurd (by simp [cacheMiss, hc]) hmiss
    | some cs =>
      have hemp : cs.isEmpty = false := by
        simp only [cacheMiss, hc] at hmiss
        exact Bool.eq_false_iff.mpr hmiss
      refine ⟨cs, cache, ?_⟩
      rw [CoordinatorAgent.analyze, hc]
      simp [hemp]

/-- C1 counterexample: a fact-verifier response that parses as the JSON array
`[{}]` — malformed output in the claim's sense — makes the coordinator's loop
raise `KeyError` on `fact['claim']`, and the exception escapes `analyze`
instead of degrading to a partial or empty result. -/
theorem analyze_throws_on_malformed_fact :
    CoordinatorAgent.analyze colBad emptyCache "t" = .error () := by rfl

/-- C1 witness: the well-formed `colGood` scenario satisfies the amended
fail-soft theorem's envelope. -/
theorem analyze_fail_soft_of_wellformed_witness :
    ∃ res cache2, CoordinatorAgent.analyze colGood emptyCache "vax" =
      .ok (res, cache2) := by
  refine analyze_fail_soft_of_wellformed colGood emptyCache "vax" (by decide) ?_
  intro f hf
  have hfacts : (FactCheckerAgent.check colGood.factLLM colGood.parse "vax"
      (EvidenceGathererAgent.gather colGood.searchFn "vax")).take 3 = [factJson1] := rfl
  rw [hfacts] at hf
  simp only [List.mem_singleton] at hf
  subst hf
  refine ⟨⟨"Vaccines cause autism", rfl⟩, ⟨"because", rfl⟩,
    ⟨.num (mkRat 9 10), mkRat 9 10, rfl, rfl, ?_, ?_⟩⟩
  · rw [Rat.mkRat_eq_div]; norm_num
  · rw [Rat.mkRat_eq_div]; norm_num

/-- C10: when the language-model response parses as a JSON value that is not
an array (for example a single JSON object), `check` returns that value
wrapped in a one-element list rather than an empty sequence or an error. -/
theorem check_wraps_non_array_json (llm : String → Except Unit String)
    (parse : String → Option Json) (topic : String) (evidence : List Evidence)
    (t : String) (v : Json)
    (hresp : llm (checkPrompt topic evidence) = .ok t)
    (hparse : parse (stripFences t) = some v)
    (hnotarr : ∀ xs, v ≠ Json.arr xs) :
    FactCheckerAgent.check llm parse topic evidence = [v] := by
  rw [FactCheckerAgent.check, hresp]
  show jsonToList (parse (stripFences t)) = [v]
  rw [hparse]
  cases v <;> first | exact absurd rfl (hnotarr _) | rfl

/-- C10 witness: a decoder returning a single JSON object makes `check`
return that object in a one-element list. -/
theorem check_wraps_non_array_json_witness :
    FactCheckerAgent.check (fun _ => .ok "OBJ") parseObj "t" [] =
      [.obj [("k", .str "v")]] :=
  check_wraps_non_array_json (fun _ => .ok "OBJ") parseObj "t" [] "OBJ"
    (.obj [("k", .str "v")]) rfl rfl (fun _ h => Json.noConfusion h)

/-- String append concatenates the underlying character lists. -/
theorem str_data_append (s t : String) : (s ++ t).data = s.data ++ t.data := by
  cases s; cases t; rfl

/-- Rebuilding a string from its characters is the identity. -/
theorem str_mk_data (s : String) : String.mk s.data = s := by
  cases s; rfl

/-- A list is a prefix (in the boolean sense) of itself followed by
anything. -/
theorem isPrefixOf_append_self (l r : List Char) : l.isPrefixOf (l ++ r) = true := by
  induction l with
  | nil => simp [List.isPrefixOf]
  | cons a as ih => simp [List.isPrefixOf, ih]

/-- The removal scan leaves a list without any pattern occurrence intact. -/
theorem pyRemoveGo_no_occurrence (pat : List Char) :
    ∀ (fuel : Nat) (l : List Char),
      (∀ n, pat.isPrefixOf (l.drop n) = false) →
      pyRemoveGo pat fuel l = l := by
  intro fuel
  induction fuel with
  | zero => intro l _; cases l <;> rfl
  | succ fuel ih =>
    intro l h
    cases l with
    | nil => rfl
    | cons c cs =>
      have h0 := h 0
      rw [List.drop_zero] at h0
      simp only [pyRemoveGo]
      rw [if_neg (by simp [h0])]
      congr 1
      exact ih cs (fun n => by have := h (n + 1); rwa [List.drop_succ_cons] at this)

/-- The removal scan walks through characters that cannot start a match. -/
theorem pyRemoveGo_skip (p : Char) (ps : List Char) :
    ∀ (body : List Char), (∀ c ∈ body, c ≠ p) → ∀ (k : Nat) (rest : List Char),
      pyRemoveGo (p :: ps) (body.length + k) (body ++ rest) =
        body ++ pyRemoveGo (p :: ps) k rest := by
  intro body
  induction body with
  | nil => intro _ k rest; simp
  | cons c cs ih =>
    intro hbody k rest
    have hc : c ≠ p := hbody c (by simp)
    have hx : List.isPrefixOf (p :: ps) (c :: (cs ++ rest)) = false := by
      simp only [List.isPrefixOf, Bool.and_eq_false_iff]
      left
      simp [beq_eq_false_iff_ne]
      exact fun h => hc h.symm
    have hlen : (c :: cs).length + k = (cs.length + k) + 1 := by
      simp [List.length_cons]
      omega
    rw [List.cons_append, hlen]
    simp only [pyRemoveGo]
    rw [if_neg (by simp [hx])]
    rw [ih (fun d hd => hbody d (by simp [hd])) k rest]
    simp

/-- The removal scan deletes a pattern occurrence at the head and goes on. -/
theorem pyRemoveGo_match_head (p : Char) (ps : List Char) (fuel : Nat)
    (rest : List Char) :
    pyRemoveGo (p :: ps) (fuel + 1) ((p :: ps) ++ rest) =
      pyRemoveGo (p :: ps) fuel rest := by
  rw [List.cons_append]
  simp only [pyRemoveGo]
  rw [if_pos (by rw [← List.cons_append]; exact isPrefixOf_append_self _ _)]
  congr 1
  have : (p :: ps).length - 1 = ps.length := by simp
  rw [this, List.drop_left]

/-- Dropping whitespace from both ends leaves a string alone when both ends
are non-whitespace. -/
theorem trimChars_of_ends {l : List Char} {a b : Char}
    (hhead : l.head? = some a) (ha : a.isWhitespace = false)
    (hlast : l.getLast? = some b) (hb : b.isWhitespace = false) :
    trimChars l = l := by
  cases l with
  | nil => exact Option.noConfusion hhead
  | cons c cs =>
    have hc : c = a := by simpa using hhead
    subst hc
    rw [trimChars, List.dropWhile_cons, if_neg (by simp [ha])]
    cases hrev : (c :: cs).reverse with
    | nil => exact absurd hrev (by simp)
    | cons d ds =>
      have hd : d = b := by
        have hh := List.head?_reverse (c :: cs)
        rw [hrev, hlast] at hh
        simpa using hh
      subst hd
      rw [List.dropWhile_cons, if_neg (by simp [hb]), ← hrev,
        List.reverse_reverse]

/-- Code-fence stripping: a response of the form ```` ```json<body>``` ````
with no backtick inside the body is reduced to the stripped body before
parsing, exactly as `result_text.strip().replace("```json",
"").replace("```", "").strip()` computes. -/
theorem stripFences_fenced (body : String)
    (hbody : ∀ c ∈ body.data, c ≠ backtick) :
    stripFences ("```json" ++ body ++ "```") = pyStrip body := by
  have h7 : "```json".data = backtick :: "``json".data := by decide
  have h3 : "```".data = backtick :: "``".data := by decide
  have h7len : "```json".data.length = 7 := by decide
  have h3len : "```".data.length = 3 := by decide
  have hdata : ("```json" ++ body ++ "```").data =
      "```json".data ++ (body.data ++ "```".data) := by
    rw [str_data_append, str_data_append, List.append_assoc]
  have htrim : trimChars (("```json" ++ body ++ "```").data) =
      ("```json" ++ body ++ "```").data := by
    refine trimChars_of_ends (a := backtick) (b := backtick) ?_ (by decide) ?_ (by decide)
    · rw [hdata, h7]
      rfl
    · rw [hdata]
      have hlast3 : "```".data.getLast? = some backtick := by decide
      rw [List.getLast?_append, List.getLast?_append, hlast3]
      rfl
  have hA : pyStrip ("```json" ++ body ++ "```") = "```json" ++ body ++ "```" := by
    rw [pyStrip, htrim, str_mk_data]
  have hB : pyRemove "```json" ("```json" ++ body ++ "```") =
      String.mk (body.data ++ "```".data) := by
    rw [pyRemove, hdata]
    congr 1
    have hlen : ("```json".data ++ (body.data ++ "```".data)).length =
        (body.data.length + 9) + 1 := by
      simp [List.length_append, h7len, h3len]
    rw [hlen, h7, pyRemoveGo_match_head,
      pyRemoveGo_skip backtick "``json".data body.data hbody 9 "```".data, ← h7]
    congr 1
  have hC : pyRemove "```" (String.mk (body.data ++ "```".data)) =
      String.mk body.data := by
    rw [pyRemove]
    congr 1
    have hlen2 : ((String.mk (body.data ++ "```".data)).data).length =
        body.data.length + 3 := by
      simp [List.length_append, h3len]
    rw [hlen2]
    rw [show (String.mk (body.data ++ "```".data)).data =
        body.data ++ "```".data from rfl]
    rw [h3, pyRemoveGo_skip backtick "``".data body.data hbody 3
      (backtick :: "``".data), ← h3]
    rw [show pyRemoveGo "```".data 3 "```".data = [] from by decide, List.append_nil]
  rw [stripFences, hA, hB, hC]

/-- C8: `check` strips the surrounding code-fence markers from the
language-model response before JSON parsing (conjunct 4: a fenced response
parses exactly its stripped body), and on a collaborator error (conjunct 1)
or a parse failure (conjunct 3) it returns the empty sequence rather than
propagating the error; conjunct 2 records that the parser is applied
exactly to the fence-stripped response text. -/
theorem check_fail_soft_and_strip_fences (llm : String → Except Unit String)
    (parse : String → Option Json) (topic : String) (evidence : List Evidence) :
    (∀ e, llm (checkPrompt topic evidence) = .error e →
      FactCheckerAgent.check llm parse topic evidence = []) ∧
    (∀ t, llm (checkPrompt topic evidence) = .ok t →
      FactCheckerAgent.check llm parse topic evidence =
        jsonToList (parse (stripFences t))) ∧
    (∀ t, llm (checkPrompt topic evidence) = .ok t →
      parse (stripFences t) = none →
      FactCheckerAgent.check llm parse topic evidence = []) ∧
    (∀ body : String, (∀ c ∈ body.data, c ≠ backtick) →
      stripFences ("```json" ++ body ++ "```") = pyStrip body) := by
  refine ⟨?_, ?_, ?_, stripFences_fenced⟩
  · intro e h
    rw [FactCheckerAgent.check, h]
  · intro t h
    rw [FactCheckerAgent.check, h]
  · intro t h hp
    rw [FactCheckerAgent.check, h]
    show jsonToList (parse (stripFences t)) = []
    rw [hp]
    rfl

/-- C8 witness: with a failed language-model call, `check` returns the empty
sequence. -/
theorem check_fail_soft_and_strip_fences_witness :
    FactCheckerAgent.check llmDown parse1 "t" [] = [] :=
  (check_fail_soft_and_strip_fences llmDown parse1 "t" []).1 () rfl

/-- Updating an existing key leaves the key sequence of the dict unchanged. -/
theorem dictInsert_keys_mem {m : List (String × String)} {k v : String}
    (h : m.any (fun p => p.1 == k) = true) :
    (dictInsert m k v).map Prod.fst = m.map Prod.fst := by
  rw [dictInsert, if_pos h, List.map_map]
  apply List.map_congr_left
  intro p _
  by_cases hp : p.1 == k
  · simp only [Function.comp_apply, if_pos hp]
    exact (eq_of_beq hp).symm
  · simp only [Function.comp_apply, if_neg hp]

/-- Inserting a fresh key appends it to the key sequence of the dict. -/
theorem dictInsert_keys_new {m : List (String × String)} {k v : String}
    (h : m.any (fun p => p.1 == k) = false) :
    (dictInsert m k v).map Prod.fst = m.map Prod.fst ++ [k] := by
  rw [dictInsert, if_neg (by simp [h])]
  simp

/-- Dict insertion preserves a pairwise property that the inserted pair
satisfies. -/
theorem dictInsert_forall {P : String × String → Prop}
    {m : List (String × String)} {k v : String}
    (hkv : P (k, v)) (hm : ∀ p ∈ m, P p) : ∀ p ∈ dictInsert m k v, P p := by
  intro p hp
  rw [dictInsert] at hp
  split at hp
  · obtain ⟨q, hq, hpq⟩ := List.mem_map.mp hp
    by_cases hqk : q.1 == k
    · rw [if_pos hqk] at hpq
      subst hpq
      exact hkv
    · rw [if_neg hqk] at hpq
      subst hpq
      exact hm q hq
  · rcases List.mem_append.mp hp with h | h
    · exact hm p h
    · simp only [List.mem_singleton] at h
      subst h
      exact hkv

/-- Characterisation of the credibility loop on extractable URLs: it
succeeds, its key sequence extends the accumulator's keys with the
first-occurrence deduplication of the yet-unseen input URLs, the keys stay
duplicate-free, and every stored value is the classification of its key's
extracted domain. -/
theorem assessGo_spec :
    ∀ (evidence : List Evidence) (m : List (String × String)),
      (∀ e ∈ evidence, e.url.data.contains '/' = true →
        3 ≤ (splitOnChar '/' e.url.data).length) →
      ((m.map Prod.fst).Nodup) →
      (∀ p ∈ m, ∃ d, domainOf p.1 = .ok d ∧ p.2 = classify d) →
      ∃ m', CredibilityAssessorAgent.assessGo evidence m = .ok m' ∧
        m'.map Prod.fst = m.map Prod.fst ++
          specDedupKeys ((evidence.map Evidence.url).filter
            (fun u => !(m.map Prod.fst).contains u)) ∧
        (m'.map Prod.fst).Nodup ∧
        (∀ p ∈ m', ∃ d, domainOf p.1 = .ok d ∧ p.2 = classify d) := by
  intro evidence
  induction evidence with
  | nil =>
    intro m _ hnd hval
    exact ⟨m, rfl, by simp [specDedupKeys], hnd, hval⟩
  | cons ev rest ih =>
    intro m hwf hnd hval
    obtain ⟨d, hd⟩ := domainOf_ok_of (hwf ev (List.mem_cons_self ev rest))
    have hwfrest : ∀ e ∈ rest, e.url.data.contains '/' = true →
        3 ≤ (splitOnChar '/' e.url.data).length :=
      fun e he hc => hwf e (List.mem_cons_of_mem _ he) hc
    have hins : ∀ p ∈ dictInsert m ev.url (classify d),
        ∃ d2, domainOf p.1 = .ok d2 ∧ p.2 = classify d2 :=
      dictInsert_forall ⟨d, hd, rfl⟩ hval
    by_cases hmem : m.any (fun p => p.1 == ev.url)
    · have hkeys := dictInsert_keys_mem (v := classify d) hmem
      obtain ⟨m', hm', hk', hnd', hval'⟩ :=
        ih (dictInsert m ev.url (classify d)) hwfrest (by rwa [hkeys]) hins
      refine ⟨m', by simp only [CredibilityAssessorAgent.assessGo, hd]; exact hm', ?_, hnd', hval'⟩
      have hcontains : (m.map Prod.fst).contains ev.url = true := by
        rw [List.any_eq_true] at hmem
        obtain ⟨p, hp, hpk⟩ := hmem
        simp only [List.contains_eq_any_beq, List.any_eq_true]
        refine ⟨p.1, List.mem_map_of_mem Prod.fst hp, ?_⟩
        rw [beq_iff_eq] at hpk ⊢
        exact hpk.symm
      have hcond : ¬((!(m.map Prod.fst).contains ev.url) = true) := by
        rw [hcontains]
        simp
      rw [hk', hkeys, List.map_cons, List.filter_cons, if_neg hcond]
    · have hmemf : (m.any fun p => p.1 == ev.url) = false :=
        Bool.eq_false_iff.mpr hmem
      have hkeys := dictInsert_keys_new (v := classify d) hmemf
      have hnotmem : ev.url ∉ m.map Prod.fst := by
        intro hx
        rw [List.any_eq_true] at hmem
        obtain ⟨p, hp, hpeq⟩ := List.mem_map.mp hx
        exact hmem ⟨p, hp, by simp [hpeq]⟩
      obtain ⟨m', hm', hk', hnd', hval'⟩ :=
        ih (dictInsert m ev.url (classify d)) hwfrest
          (by rw [hkeys]; simp [List.nodup_append, hnd, hnotmem]) hins
      refine ⟨m', by simp only [CredibilityAssessorAgent.assessGo, hd]; exact hm', ?_, hnd', hval'⟩
      rw [hk', hkeys]
      have hcontains : (m.map Prod.fst).contains ev.url = false := by
        simp only [List.contains_eq_any_beq, List.any_eq_false]
        intro u hu
        obtain ⟨p, hp, hpeq⟩ := List.mem_map.mp hu
        intro hbe
        rw [List.any_eq_true] at hmem
        refine hmem ⟨p, hp, ?_⟩
        rw [beq_iff_eq] at hbe ⊢
        rw [hpeq]
        exact hbe.symm
      have hfuse : (rest.map Evidence.url).filter
            (fun u => !((m.map Prod.fst) ++ [ev.url]).contains u) =
          ((rest.map Evidence.url).filter
            (fun u => !(m.map Prod.fst).contains u)).filter
            (fun u => u != ev.url) := by
        rw [List.filter_filter]
        apply List.filter_congr
        intro u _
        have h1 : ((m.map Prod.fst) ++ [ev.url]).contains u =
            ((m.map Prod.fst).contains u || u == ev.url) := by
          apply Bool.eq_iff_iff.mpr
          simp [List.mem_append]
        rw [h1, Bool.not_or, Bool.and_comm]
        rfl
      have hcond : (!(m.map Prod.fst).contains ev.url) = true := by
        rw [hcontains]
        rfl
      rw [List.map_cons, List.filter_cons, if_pos hcond]
      simp only [specDedupKeys]
      rw [← hfuse]
      simp [List.append_assoc]

/-- C2 (amended): for every evidence sequence whose URLs are extractable —
each URL either contains no `/` or splits into at least three `/`-delimited
segments — `assess` returns a total mapping whose key sequence is exactly the
input URLs in first-occurrence order, each exactly once, and whose value at
each URL is the classification (`high`/`low`/`medium` by the keyword rules in
`classify`) of the domain extracted by `domainOf` (the segment at index 2,
or the whole URL when it has no `/`). The counterexample
`assess_error_on_short_url` shows the extractability hypothesis is needed. -/
theorem assess_total_mapping (evidence : List Evidence)
    (hwf : ∀ e ∈ evidence, e.url.data.contains '/' = true →
      3 ≤ (splitOnChar '/' e.url.data).length) :
    ∃ m, CredibilityAssessorAgent.assess evidence = .ok m ∧
      m.map Prod.fst = specDedupKeys (evidence.map Evidence.url) ∧
      (m.map Prod.fst).Nodup ∧
      (∀ p ∈ m, ∃ d, domainOf p.1 = .ok d ∧ p.2 = classify d) := by
  obtain ⟨m, hm, hkeys, hnd, hval⟩ :=
    assessGo_spec evidence [] hwf (by simp) (by simp)
  refine ⟨m, hm, ?_, hnd, hval⟩
  rw [hkeys]
  simp

/-- C2 counterexample: the URL `a/b` contains a `/` but splits into only two
segments, so `split('/')[2]` raises `IndexError` inside `assess` — `assess`
is not total on every evidence sequence, contradicting the claim as stated. -/
theorem assess_error_on_short_url :
    CredibilityAssessorAgent.assess [⟨"t", "a/b", "s"⟩] = .error () := by rfl

/-- C2 witness: on the BBC fixture URL the amended totality theorem applies
concretely. -/
theorem assess_total_mapping_witness :
    ∃ m, CredibilityAssessorAgent.assess [ev1] = .ok m ∧
      m.map Prod.fst = specDedupKeys ([ev1].map Evidence.url) ∧
      (m.map Prod.fst).Nodup ∧
      (∀ p ∈ m, ∃ d, domainOf p.1 = .ok d ∧ p.2 = classify d) :=
  assess_total_mapping [ev1] (by decide)

/-- `validEvidence` skips results with a missing `href`. -/
theorem validEvidence_cons_none {r : SearchResult} {rest : List SearchResult}
    (hr : r.href = none) : validEvidence (r :: rest) = validEvidence rest := by
  simp [validEvidence, List.filterMap_cons, hr]

/-- `validEvidence` skips results with an empty (falsy) `href`. -/
theorem validEvidence_cons_empty {r : SearchResult} {rest : List SearchResult}
    (hr : r.href = some "") : validEvidence (r :: rest) = validEvidence rest := by
  simp [validEvidence, List.filterMap_cons, hr]

/-- `validEvidence` keeps results with a present, non-empty `href`. -/
theorem validEvidence_cons_some {r : SearchResult} {rest : List SearchResult}
    {u : String} (hr : r.href = some u) (hu : u ≠ "") :
    validEvidence (r :: rest) = mkEvidence r :: validEvidence rest := by
  simp [validEvidence, List.filterMap_cons, hr, hu]

/-- A kept result's evidence URL is its `href`. -/
theorem mkEvidence_url {r : SearchResult} {u : String} (hr : r.href = some u) :
    (mkEvidence r).url = u := by
  simp [mkEvidence, hr]

/-- The gatherer's dedup loop computes exactly the spec's first-occurrence
deduplication of the valid results not yet seen. -/
theorem gatherDedup_eq_spec :
    ∀ (rs : List SearchResult) (seen : List String),
      gatherDedup rs seen =
        specDedupByUrl ((validEvidence rs).filter (fun e => !seen.contains e.url)) := by
  intro rs
  induction rs with
  | nil => intro seen; simp [gatherDedup, validEvidence, specDedupByUrl]
  | cons r rest ih =>
    intro seen
    cases hr : r.href with
    | none =>
      rw [validEvidence_cons_none hr]
      simp only [gatherDedup, hr]
      exact ih seen
    | some u =>
      by_cases hu : u = ""
      · subst hu
        rw [validEvidence_cons_empty hr]
        simp only [gatherDedup, hr]
        rw [if_neg (by simp)]
        exact ih seen
      · by_cases hseen : u ∈ seen
        · rw [validEvidence_cons_some hr hu, List.filter_cons,
            if_neg (by simp [mkEvidence_url hr, hseen])]
          simp only [gatherDedup, hr]
          rw [if_neg (by simp [hseen])]
          exact ih seen
        · rw [validEvidence_cons_some hr hu, List.filter_cons,
            if_pos (by simp [mkEvidence_url hr, hseen])]
          simp only [gatherDedup, hr]
          rw [if_pos ⟨hu, hseen⟩]
          simp only [specDedupByUrl]
          rw [mkEvidence_url hr]
          congr 1
          rw [ih (u :: seen), List.filter_filter]
          congr 1
          apply List.filter_congr
          intro e _
          have h1 : (u :: seen).contains e.url = (e.url == u || seen.contains e.url) := by
            apply Bool.eq_iff_iff.mpr
            simp
          rw [h1, Bool.not_or]
          rfl

/-- Every element the spec-side dedup keeps comes from the input list. -/
theorem specDedupByUrl_subset :
    ∀ (n : Nat) (l : List Evidence), l.length ≤ n →
      ∀ e ∈ specDedupByUrl l, e ∈ l := by
  intro n
  induction n with
  | zero =>
    intro l hl e he
    cases l with
    | nil => simp [specDedupByUrl] at he
    | cons a as => simp at hl
  | succ n ih =>
    intro l hl e he
    cases l with
    | nil => simp [specDedupByUrl] at he
    | cons a as =>
      simp only [specDedupByUrl] at he
      rcases List.mem_cons.mp he with rfl | hmem
      · exact List.mem_cons_self _ _
      · have hlen : (as.filter (fun x => x.url != a.url)).length ≤ n :=
          le_trans (List.length_filter_le _ _) (Nat.succ_le_succ_iff.mp hl)
        exact List.mem_cons_of_mem _
          (List.mem_of_mem_filter (ih _ hlen e hmem))

/-- The spec-side dedup produces pairwise-distinct URLs. -/
theorem specDedupByUrl_nodup :
    ∀ (n : Nat) (l : List Evidence), l.length ≤ n →
      ((specDedupByUrl l).map Evidence.url).Nodup := by
  intro n
  induction n with
  | zero =>
    intro l hl
    cases l with
    | nil => simp [specDedupByUrl]
    | cons a as => simp at hl
  | succ n ih =>
    intro l hl
    cases l with
    | nil => simp [specDedupByUrl]
    | cons a as =>
      have hlen : (as.filter (fun x => x.url != a.url)).length ≤ n :=
        le_trans (List.length_filter_le _ _) (Nat.succ_le_succ_iff.mp hl)
      simp only [specDedupByUrl, List.map_cons, List.nodup_cons]
      refine ⟨?_, ih _ hlen⟩
      intro hx
      obtain ⟨e, he, heq⟩ := List.mem_map.mp hx
      have hE := specDedupByUrl_subset n _ hlen e he
      have hne := List.of_mem_filter hE
      rw [heq] at hne
      simp at hne

/-- Every kept evidence item is the conversion of some raw result. -/
theorem validEvidence_mem {rs : List SearchResult} {e : Evidence}
    (h : e ∈ validEvidence rs) : ∃ r ∈ rs, e = mkEvidence r := by
  rw [validEvidence] at h
  obtain ⟨r, hr, hmap⟩ := List.mem_filterMap.mp h
  refine ⟨r, hr, ?_⟩
  cases hhr : r.href with
  | none =>
    rw [hhr] at hmap
    exact Option.noConfusion hmap
  | some u =>
    rw [hhr] at hmap
    replace hmap : (if u = "" then none else some (mkEvidence r)) = some e := hmap
    by_cases hu : u = ""
    · rw [if_pos hu] at hmap
      exact Option.noConfusion hmap
    · rw [if_neg hu] at hmap
      exact (Option.some_inj.mp hmap).symm

/-- Converted snippets are truncated to at most 200 characters. -/
theorem mkEvidence_snippet_le (r : SearchResult) :
    (mkEvidence r).snippet.length ≤ 200 := by
  show ((r.body.getD "").data.take 200).length ≤ 200
  rw [List.length_take]
  exact Nat.min_le_left _ _

/-- C3: `gather` issues exactly the three derived queries, merges the
per-query results in query-submission order, deduplicates by URL keeping the
first occurrence (it equals the spec-side first-occurrence dedup of the valid
results of the merged, submission-ordered result lists, truncated to 8),
returns at most 8 items with pairwise-distinct URLs, and truncates every
snippet to at most 200 characters. -/
theorem gather_merge_dedup_truncate (searchFn : String → List SearchResult)
    (topic : String) :
    gatherQueries topic =
      [topic, topic ++ " fact check", topic ++ " misinformation analysis"] ∧
    EvidenceGathererAgent.gather searchFn topic =
      (specDedupByUrl (validEvidence
        (List.flatten ((gatherQueries topic).map searchFn)))).take 8 ∧
    (EvidenceGathererAgent.gather searchFn topic).length ≤ 8 ∧
    (∀ e ∈ EvidenceGathererAgent.gather searchFn topic,
      e.snippet.length ≤ 200) ∧
    ((EvidenceGathererAgent.gather searchFn topic).map Evidence.url).Nodup := by
  have hspec : EvidenceGathererAgent.gather searchFn topic =
      (specDedupByUrl (validEvidence
        (List.flatten ((gatherQueries topic).map searchFn)))).take 8 := by
    rw [EvidenceGathererAgent.gather, gatherDedup_eq_spec]
    congr 2
    apply List.filter_eq_self.mpr
    intro a _
    rfl
  refine ⟨rfl, hspec, ?_, ?_, ?_⟩
  · rw [EvidenceGathererAgent.gather, List.length_take]
    exact Nat.min_le_left _ _
  · intro e he
    rw [hspec] at he
    have h1 := List.mem_of_mem_take he
    have h2 := specDedupByUrl_subset
      (validEvidence (List.flatten ((gatherQueries topic).map searchFn))).length
      _ le_rfl e h1
    obtain ⟨r, _, rfl⟩ := validEvidence_mem h2
    exact mkEvidence_snippet_le r
  · rw [hspec]
    have hnd := specDedupByUrl_nodup
      (validEvidence (List.flatten ((gatherQueries topic).map searchFn))).length
      _ le_rfl
    exact hnd.sublist ((List.take_sublist _ _).map Evidence.url)

/-- C3 witness: the fixture search backend instantiates the gatherer
characterisation; in particular its output length is at most 8. -/
theorem gather_merge_dedup_truncate_witness :
    (EvidenceGathererAgent.gather searchOne "vax").length ≤ 8 :=
  (gather_merge_dedup_truncate searchOne "vax").2.2.1

/-- A non-empty cache hit is returned as-is by any collaborator bundle. -/
theorem analyze_hit_eq (col : Collab) {cache : MemoryBank} {topic : String}
    {cs : List ClaimAnalysis} (hhit : MemoryBank.get cache topic = some cs)
    (hne : cs ≠ []) :
    CoordinatorAgent.analyze col cache topic = .ok (cs, cache) := by
  rw [CoordinatorAgent.analyze, hhit]
  simp [List.isEmpty_iff, hne]

/-- Changing only the `j`-th explanation call changes only the `j`-th output
claim, and even there only its explanation field — provided the `j`-th fact's
reasoning is a string (otherwise the fallback itself would not validate). -/
theorem processFacts_explain_local (col : Collab)
    (f2 : Nat → String → Except Unit String) (j : Nat)
    (evidence : List Evidence) (credMap : List (String × String))
    (hagree : ∀ k, k ≠ j → f2 k = col.explainLLM k) :
    ∀ (fs : List Json) (k : Nat) (res : List ClaimAnalysis),
      CoordinatorAgent.processFacts col evidence credMap k fs = .ok res →
      (∀ i f, fs[i]? = some f → k + i = j →
        ∃ r, Json.getDefault f "reasoning" (Json.str "") = .ok (Json.str r)) →
      ∃ res2, CoordinatorAgent.processFacts {col with explainLLM := f2}
          evidence credMap k fs = .ok res2 ∧
        res2.length = res.length ∧
        (∀ i, k + i ≠ j → res2[i]? = res[i]?) ∧
        (∀ i (hi : i < res.length) (hi2 : i < res2.length),
          res2[i].claim = res[i].claim ∧ res2[i].verdict = res[i].verdict ∧
          res2[i].confidence = res[i].confidence ∧
          res2[i].evidence = res[i].evidence ∧
          res2[i].cached = res[i].cached) := by
  intro fs
  induction fs with
  | nil =>
    intro k res h _
    simp only [CoordinatorAgent.processFacts] at h
    cases h
    exact ⟨[], rfl, rfl, fun i _ => rfl, fun i hi => absurd hi (by simp)⟩
  | cons f fs ih =>
    intro k res h hreason
    simp only [CoordinatorAgent.processFacts] at h
    obtain ⟨claimJ, hclaim, h⟩ := except_bind_ok h
    obtain ⟨reasoningJ, hreas, h⟩ := except_bind_ok h
    obtain ⟨confJ, hconf, h⟩ := except_bind_ok h
    obtain ⟨conf, hpf, h⟩ := except_bind_ok h
    obtain ⟨ca, hmk, h⟩ := except_bind_ok h
    obtain ⟨rest, hrest, h⟩ := except_bind_ok h
    have hres : res = ca :: rest := by
      simpa [Pure.pure, Except.pure] using h.symm
    subst hres
    have hreason2 : ∀ i f', fs[i]? = some f' → (k + 1) + i = j →
        ∃ r, Json.getDefault f' "reasoning" (Json.str "") = .ok (Json.str r) :=
      fun i f' hf' hij => hreason (i + 1) f' (by simpa using hf') (by omega)
    obtain ⟨rest2, hrest2, hlen2, hidx2, hfields2⟩ := ih (k + 1) rest hrest hreason2
    obtain ⟨hcl, hex, hconf_eq, hverd, hev, hcached, hb1, hb2⟩ := mkClaimAnalysis_ok hmk
    have hstr : ∃ ex2, ExplainerAgent.explain (f2 k) claimJ reasoningJ
        (selectedEvidence evidence credMap) = .str ex2 := by
      by_cases hkj : k = j
      · obtain ⟨r, hr⟩ := hreason 0 f (by simp) (by omega)
        rw [hreas] at hr
        have hrj : reasoningJ = .str r := by
          have := Except.ok.inj hr
          exact this
        subst hrj
        cases hllm : f2 k (explainPrompt claimJ.render (Json.str r).render
            (selectedEvidence evidence credMap)) with
        | ok t => exact ⟨t, by rw [ExplainerAgent.explain, hllm]⟩
        | error e => exact ⟨r, by rw [ExplainerAgent.explain, hllm]⟩
      · rw [hagree k hkj]
        exact ⟨ca.explanation, hex⟩
    obtain ⟨ex2, hex2⟩ := hstr
    have hmk2 : mkClaimAnalysis claimJ conf (.str ex2)
        (selectedEvidence evidence credMap) =
        .ok ⟨ca.claim, "MISINFORMATION", conf, ex2,
          selectedEvidence evidence credMap, false⟩ := by
      rw [hcl]
      simp only [mkClaimAnalysis]
      rw [if_pos ((mkClaimAnalysis_cond_iff conf).mpr ⟨hb1, hb2⟩)]
    have hca_eta : ca = ⟨ca.claim, "MISINFORMATION", ca.confidence,
        ca.explanation, selectedEvidence evidence credMap, false⟩ := by
      rw [← hverd, ← hev, ← hcached]
    refine ⟨⟨ca.claim, "MISINFORMATION", conf, ex2,
      selectedEvidence evidence credMap, false⟩ :: rest2, ?_, by simp [hlen2], ?_, ?_⟩
    · simp only [CoordinatorAgent.processFacts, hclaim, hreas, hconf, hpf, hex2,
        hmk2, hrest2, Bind.bind, Except.bind, Pure.pure, Except.pure]
    · intro i hij
      cases i with
      | zero =>
        have hkj : k ≠ j := by omega
        have hexeq : Json.str ex2 = Json.str ca.explanation := by
          rw [← hex2, hagree k hkj, hex]
        have hx2 : ex2 = ca.explanation := Json.str.inj hexeq
        simp only [List.getElem?_cons_zero, hx2, ← hconf_eq]
        rw [← hca_eta]
      | succ n =>
        simp only [List.getElem?_cons_succ]
        exact hidx2 n (by omega)
    · intro i hi hi2
      cases i with
      | zero =>
        refine ⟨rfl, ?_, ?_, ?_, ?_⟩ <;>
          simp [hverd, hconf_eq, hev, hcached]
      | succ n =>
        have hn : n < rest.length := by simpa [Nat.succ_lt_succ_iff] using hi
        have hn2 : n < rest2.length := by simpa [Nat.succ_lt_succ_iff] using hi2
        simpa using hfields2 n hn hn2

/-- C9: part 1 — when the language-model collaborator errors during
explanation generation, `explain` returns the supplied reasoning unchanged
(in particular a reasoning string comes back verbatim). Part 2 — within
`analyze`, a change of behaviour of the `j`-th explanation call (such as a
failure) leaves every other claim of the output untouched, and even the
`j`-th claim keeps its claim text, confidence, evidence and cached flag;
only its explanation can differ. The `j`-th fact's reasoning is assumed to
be a string, as the fallback path feeds it to the string-validated
`explanation` field. -/
theorem explain_error_fallback_isolated :
    (∀ (llm : String → Except Unit String) (claimJ reasoningJ : Json)
      (ev : List Evidence) (e : Unit),
      llm (explainPrompt claimJ.render reasoningJ.render ev) = .error e →
      ExplainerAgent.explain llm claimJ reasoningJ ev = reasoningJ) ∧
    (∀ (col : Collab) (f2 : Nat → String → Except Unit String) (j : Nat)
      (cache : MemoryBank) (topic : String) (res : List ClaimAnalysis)
      (cache2 : MemoryBank),
      (∀ k, k ≠ j → f2 k = col.explainLLM k) →
      (∀ f, ((FactCheckerAgent.check col.factLLM col.parse topic
          (EvidenceGathererAgent.gather col.searchFn topic)).take 3)[j]? = some f →
        ∃ r, Json.getDefault f "reasoning" (Json.str "") = .ok (Json.str r)) →
      CoordinatorAgent.analyze col cache topic = .ok (res, cache2) →
      ∃ res2 cache2b,
        CoordinatorAgent.analyze {col with explainLLM := f2} cache topic =
          .ok (res2, cache2b) ∧
        res2.length = res.length ∧
        (∀ i, i ≠ j → res2[i]? = res[i]?) ∧
        (∀ i (hi : i < res.length) (hi2 : i < res2.length),
          res2[i].claim = res[i].claim ∧
          res2[i].confidence = res[i].confidence ∧
          res2[i].evidence = res[i].evidence ∧
          res2[i].cached = res[i].cached)) := by
  constructor
  · intro llm claimJ reasoningJ ev e h
    rw [ExplainerAgent.explain, h]
  · intro col f2 j cache topic res cache2 hagree hreason hok
    rcases analyze_ok_inv hok with ⟨cs, hget, hne, rfl, rfl⟩ | ⟨hmiss, hmok⟩
    · exact ⟨res, _, analyze_hit_eq _ hget hne, rfl, fun i _ => rfl,
        fun i hi hi2 => ⟨rfl, rfl, rfl, rfl⟩⟩
    · have hm2 : CoordinatorAgent.analyze {col with explainLLM := f2} cache topic =
          CoordinatorAgent.analyzeMiss {col with explainLLM := f2} cache topic :=
        analyze_eq_miss _ cache topic hmiss
      by_cases hg : EvidenceGathererAgent.gather col.searchFn topic = []
      · rw [CoordinatorAgent.analyzeMiss, hg] at hmok
        replace hmok : Except.ok (([] : List ClaimAnalysis), cache) =
            Except.ok (res, cache2) := hmok
        have hpair : ([] : List ClaimAnalysis) = res ∧ cache = cache2 := by
          simpa [Prod.ext_iff] using hmok
        obtain ⟨rfl, rfl⟩ := hpair
        refine ⟨[], cache, ?_, rfl, fun i _ => rfl, fun i hi => absurd hi (by simp)⟩
        rw [hm2, CoordinatorAgent.analyzeMiss]
        show (if (EvidenceGathererAgent.gather col.searchFn topic).isEmpty then _ else _) = _
        rw [hg]
        rfl
      · obtain ⟨credMap, hcm, hpc, _⟩ := analyzeMiss_ok_inv hmok hg
        have hreason0 : ∀ i f, ((FactCheckerAgent.check col.factLLM col.parse topic
            (EvidenceGathererAgent.gather col.searchFn topic)).take 3)[i]? = some f →
            0 + i = j →
            ∃ r, Json.getDefault f "reasoning" (Json.str "") = .ok (Json.str r) := by
          intro i f hf hij
          have hij' : i = j := by omega
          subst hij'
          exact hreason f hf
        obtain ⟨res2, hpc2, hlen2, hidx2, hfields2⟩ :=
          processFacts_explain_local col f2 j
            (EvidenceGathererAgent.gather col.searchFn topic) credMap hagree
            _ 0 res hpc hreason0
        refine ⟨res2, if res2.isEmpty then cache
          else MemoryBank.store cache topic res2, ?_, hlen2, ?_, ?_⟩
        rotate_right 1
        · intro i hi hi2
          obtain ⟨h1, -, h3, h4, h5⟩ := hfields2 i hi hi2
          exact ⟨h1, h3, h4, h5⟩
        · rw [hm2, CoordinatorAgent.analyzeMiss,
            if_neg (by simpa [List.isEmpty_iff] using hg)]
          have hcm2 : CredibilityAssessorAgent.assess
              (EvidenceGathererAgent.gather col.searchFn topic) = .ok credMap := hcm
          simp only [hcm2, hpc2, Bind.bind, Except.bind]
          by_cases hre : res2.isEmpty <;> simp [hre]
        · intro i hij
          exact hidx2 i (by omega)

/-- C9 witness: a failed explanation call returns the reasoning string
verbatim. -/
theorem explain_error_fallback_isolated_witness :
    ExplainerAgent.explain llmDown (Json.str "c") (Json.str "r") [] =
      Json.str "r" :=
  explain_error_fallback_isolated.1 llmDown (Json.str "c") (Json.str "r") [] () rfl

end MisinfoGuard
